import Mathlib

/-!
Verification of the `Select` form field from `field_select.go` (package huh).

Shallow embedding notes:
- The Go generic `Select[T]` becomes `Select T E`, where `E` is the type of
  validation errors (Go `error` interface values; `nil` is `Option.none`).
- The caller-owned bound-value cell `*s.value` is modelled by the field
  `value : T` holding the current contents of the cell; the Go write
  `*s.value = v` is modelled as updating that field.
- `tea.Msg` dispatch: `Update` switches on the message kind. A key message
  is modelled together with the keymap resolution performed by
  `key.Matches` (an external collaborator): `Msg.key a` carries the first
  binding the key matches among Up/Down/Prev/Next, or `none` when it
  matches no binding. Non-key messages are `Msg.other`.
- `tea.Cmd` results: `prevField` / `nextField` / `nil` become `Option Cmd`.
- Each operation additionally returns the list of arguments the validator
  was applied to during that operation (its validator-call trace), read
  off the call sites in the Go source; this makes claims of the form
  "runs the validator exactly once" statable.
- Go slice indexing `s.options[i]` on an `int` index panics when out of
  range; this is modelled by `goIndex` returning `none` and the operation
  returning `none` (the panic branch).
- `fmt.Sprint` in `NewSelect` is an external formatter, passed in as
  `keyOf : T → String`.
-/

namespace Huh

/-- Option is a key-value pair (the Go `Option[T]` of the huh package;
named `SelectOption` here to avoid clashing with the Lean `Option`). -/
structure SelectOption (T : Type) where
  key : String
  value : T
deriving DecidableEq

/-- The four logical key actions the keymap can resolve a key message to
(`s.keymap.Up / Down / Prev / Next`). -/
inductive KeyAction where
  | up
  | down
  | prev
  | next
deriving DecidableEq

/-- A `tea.Msg`: either a key message (carrying the keymap resolution:
the first matching binding, or `none` when no binding matches) or any
other message. -/
inductive Msg where
  | key : Option KeyAction → Msg
  | other : Msg
deriving DecidableEq

/-- The navigation commands a select field can return (`prevField`,
`nextField`); `nil` is modelled as `Option.none` at use sites. -/
inductive Cmd where
  | prevField
  | nextField
deriving DecidableEq

/-- Select is a form select field (the Go struct `Select[T]`).
`value` holds the contents of the caller-owned bound-value cell
`*s.value`; `err` is the `err` field (the spec `lastError`); `selected`
is the cursor (a Go `int`, hence `Int`: it can in principle leave
`[0, len)`). The presentation fields `width`, `accessible`, `theme`,
`keymap` are external collaborators; the effect of the keymap is already
folded into `Msg`. -/
structure Select (T E : Type) where
  value : T
  title : String := ""
  description : String := ""
  options : List (SelectOption T)
  validate : T → Option E
  err : Option E := none
  selected : Int := 0
  focused : Bool := false

/-- Go slice indexing `l[i]` with an `int` index: `some` element when in
range, `none` for the index-out-of-range panic. -/
def goIndex {α : Type} (l : List α) (i : Int) : Option α :=
  if 0 ≤ i then l.get? i.toNat else none

/-- NewSelect returns a new select field (Go `NewSelect`): a fresh
zero-value bound cell (`new(T)`), options built from the given values
with `keyOf` standing for `fmt.Sprint`, and a validator that always
succeeds. -/
def NewSelect {T E : Type} [Inhabited T] (keyOf : T → String) (options : List T) :
    Select T E :=
  { value := default
    options := options.map fun o => { key := keyOf o, value := o }
    validate := fun _ => none }

/-- Error returns the error of the select field (Go `Select.Error`). -/
def Select.Error {T E : Type} (s : Select T E) : Option E :=
  s.err

/-- Focus focuses the select field (Go `Select.Focus`): sets the focused
flag and returns a `nil` command. The validator-call trace is `[]`: the
body contains no validator call. -/
def Select.Focus {T E : Type} (s : Select T E) : Select T E × Option Cmd × List T :=
  ({ s with focused := true }, none, [])

/-- Blur blurs the select field (Go `Select.Blur`): clears the focused
flag, sets `err` to the validator applied to the bound value, and
returns a `nil` command. The trace `[s.value]` records the single
validator call site `s.validate(*s.value)`, executed unconditionally. -/
def Select.Blur {T E : Type} (s : Select T E) : Select T E × Option Cmd × List T :=
  ({ s with focused := false, err := s.validate s.value }, none, [s.value])

/-- Update updates the select field (Go `Select.Update`). In the Go code
the key-message case first runs `s.err = nil` and then branches on the
matched binding; here that assignment is inlined into each branch (the
net effect per branch is identical, in the advance branch `s.err` is
immediately reassigned to the validator result). The advance branch
indexes `s.options[s.selected]` (panic = `none`), validates, and on
success writes the bound cell and returns `nextField`. -/
def Select.Update {T E : Type} (s : Select T E) (msg : Msg) :
    Option (Select T E × Option Cmd × List T) :=
  match msg with
  | .other => some (s, none, [])
  | .key a =>
    match a with
    | some .up =>
      some ({ s with err := none, selected := max (s.selected - 1) 0 }, none, [])
    | some .down =>
      let c := min (s.selected + 1) ((s.options.length : Int) - 1)
      some ({ s with err := none, selected := c }, none, [])
    | some .prev => some ({ s with err := none }, some .prevField, [])
    | some .next =>
      match goIndex s.options s.selected with
      | none => none
      | some o =>
        match s.validate o.value with
        | some e => some ({ s with err := some e }, none, [o.value])
        | none =>
          some ({ s with err := none, value := o.value }, some .nextField, [o.value])
    | none => some ({ s with err := none }, none, [])

/-- Runs a list of messages through `Select.Update`, threading the state
and collecting the command returned for each message; `none` when some
step panics. -/
def Select.runMsgs {T E : Type} (s : Select T E) :
    List Msg → Option (Select T E × List (Option Cmd))
  | [] => some (s, [])
  | m :: ms =>
    match Select.Update s m with
    | none => none
    | some (s', c, _) =>
      match Select.runMsgs s' ms with
      | none => none
      | some (s'', cs) => some (s'', c :: cs)

/-- The numbered static listing printed once by `runAccessible`
(`fmt.Sprintf` of index-plus-one and the option key); the theme-styled
title line is delegated to the external theme collaborator. -/
def Select.accessibleHeader {T E : Type} (s : Select T E) : List String :=
  s.options.enum.map fun p => toString (p.1 + 1) ++ ". " ++ p.2.key

/-- The prompt loop of Go `Select.runAccessible`, over the stream of
integers returned by `accessibility.PromptInt` (each guaranteed by that
collaborator to lie in `[1, len(options)]`). Result: final state, the
lines printed by the loop, and the Go return value (always `nil`, i.e.
`none`: the only `return` statement is `return nil`). `none` overall
models a loop still blocked on input (stream exhausted) or an indexing
panic. The Go function can return no navigation command at all (its
result type is just `error`), so no `Cmd` component appears. -/
def Select.runAccessible {T E : Type} (errStr : E → String) (s : Select T E) :
    List Nat → Option (Select T E × List String × Option E)
  | [] => none
  | c :: rest =>
    match goIndex s.options ((c : Int) - 1) with
    | none => none
    | some o =>
      match s.validate o.value with
      | some e =>
        match Select.runAccessible errStr s rest with
        | none => none
        | some (s', out, r) => some (s', errStr e :: out, r)
      | none =>
        some ({ s with value := o.value }, ["Chose: " ++ o.key ++ "\n"], none)

/-- Concrete field for the C1 witness: two options, validator always
succeeds, cursor on the second option, stale error present. -/
def s1W : Select Nat String :=
  { value := 7, options := [⟨"1", 1⟩, ⟨"2", 2⟩], validate := fun _ => none, err := some "old", selected := 1, focused := true }

/-- Concrete field for the C2 witness: validator always fails. -/
def s2W : Select Nat String :=
  { value := 7, options := [⟨"1", 1⟩, ⟨"2", 2⟩], validate := fun _ => some "bad", focused := true }

/-- Concrete field for the C3 witness: three options, cursor at 0. -/
def s3W : Select Nat String :=
  { value := 0, options := [⟨"a", 10⟩, ⟨"b", 20⟩, ⟨"c", 30⟩], validate := fun _ => none }

/-- Concrete navigation sequence for the C3 witness. -/
def ms3W : List Msg :=
  [Msg.key (some KeyAction.down), Msg.key (some KeyAction.down), Msg.key (some KeyAction.down), Msg.key (some KeyAction.up)]

/-- Concrete field for C5: constructed by `NewSelect` with zero options. -/
def s5W : Select Nat String := NewSelect toString []

/-- Concrete field for the C6 counterexample: a stored error is present. -/
def s6W : Select Nat String :=
  { value := 0, options := [⟨"1", 1⟩], validate := fun _ => none, err := some "boom" }

/-- Concrete focused field for the C7 witness. -/
def s7W : Select Nat String :=
  { value := 0, options := [⟨"1", 1⟩], validate := fun _ => none, focused := true }

/-- Concrete field for the C8 witness: three options, validator always
succeeds. -/
def s8W : Select Nat String :=
  { value := 0, options := [⟨"one", 1⟩, ⟨"two", 2⟩, ⟨"three", 3⟩], validate := fun _ => none }

/-- A state fixed by a message (the update returns the state itself with
no command) stays fixed under any number of repetitions of that message,
each repetition returning the same command. -/
lemma runMsgs_replicate_fix {T E : Type} (s : Select T E) (m : Msg) (c : Option Cmd) (tr : List T)
    (h : Select.Update s m = some (s, c, tr)) :
    ∀ n, Select.runMsgs s (List.replicate n m) = some (s, List.replicate n c) := by
  intro n
  induction n with
  | zero => rfl
  | succ n ih => simp [List.replicate_succ, Select.runMsgs, h, ih]

/-- Any sequence of move-up/move-down messages keeps the cursor inside
`[0, len(options))` and leaves the option list unchanged. -/
lemma runMsgs_nav_bounds {T E : Type} (ms : List Msg) :
    ∀ s : Select T E,
      (∀ m ∈ ms, m = Msg.key (some KeyAction.up) ∨ m = Msg.key (some KeyAction.down)) →
      0 ≤ s.selected → s.selected < s.options.length →
      ∃ s' cs, Select.runMsgs s ms = some (s', cs) ∧
        0 ≤ s'.selected ∧ s'.selected < s'.options.length ∧ s'.options = s.options := by
  induction ms with
  | nil => intro s _ h0 h1; exact ⟨s, [], rfl, h0, h1, rfl⟩
  | cons m ms ih =>
    intro s hm h0 h1
    have hlen : (0 : Int) < s.options.length := lt_of_le_of_lt h0 h1
    rcases hm m (List.mem_cons_self m ms) with rfl | rfl
    · obtain ⟨s', cs, hrun, p0, p1, p2⟩ :=
        ih { s with err := none, selected := max (s.selected - 1) 0 }
          (fun m hm' => hm m (List.mem_cons_of_mem _ hm'))
          (le_max_right _ _)
          (show max (s.selected - 1) 0 < (s.options.length : Int) from
            max_lt (by omega) hlen)
      exact ⟨s', none :: cs, by simp [Select.runMsgs, Select.Update, hrun], p0, p1, p2⟩
    · obtain ⟨s', cs, hrun, p0, p1, p2⟩ :=
        ih { s with err := none, selected := min (s.selected + 1) ((s.options.length : Int) - 1) }
          (fun m hm' => hm m (List.mem_cons_of_mem _ hm'))
          (le_min (by omega) (by omega))
          (show min (s.selected + 1) ((s.options.length : Int) - 1) < (s.options.length : Int) from
            lt_of_le_of_lt (min_le_right _ _) (by omega))
      exact ⟨s', none :: cs, by simp [Select.runMsgs, Select.Update, hrun], p0, p1, p2⟩

/-- C1: when the option under the cursor exists and the validator accepts
its value, an advance-key event clears the stored error, writes exactly
`options[cursor].value` into the bound cell, runs the validator exactly
once (trace `[o.value]`), and emits exactly one `nextField` command; and
repeating the advance event on the resulting state revalidates and
rewrites the same value with the same single command, not an error. -/
theorem update_advance_success {T E : Type} (s : Select T E) (o : SelectOption T)
    (hidx : goIndex s.options s.selected = some o)
    (hv : s.validate o.value = none) :
    Select.Update s (Msg.key (some KeyAction.next)) =
      some ({ s with err := none, value := o.value }, some Cmd.nextField, [o.value]) ∧
    Select.Update { s with err := none, value := o.value } (Msg.key (some KeyAction.next)) =
      some ({ s with err := none, value := o.value }, some Cmd.nextField, [o.value]) := by
  constructor
  · simp [Select.Update, hidx, hv]
  · simp [Select.Update, hidx, hv]

/-- C1 witness: the theorem applied to the concrete field `s1W` with the
cursor on option `⟨"2", 2⟩`. -/
theorem update_advance_success_app :
    Select.Update s1W (Msg.key (some KeyAction.next)) =
      some ({ s1W with err := none, value := 2 }, some Cmd.nextField, [2]) ∧
    Select.Update { s1W with err := none, value := 2 } (Msg.key (some KeyAction.next)) =
      some ({ s1W with err := none, value := 2 }, some Cmd.nextField, [2]) :=
  update_advance_success s1W ⟨"2", 2⟩ rfl rfl

/-- C2: when the validator rejects the value under the cursor, an
advance-key event stores exactly that error, returns no command, and any
number of repeated advance attempts leaves the bound value, the cursor,
the focus flag and the option list unchanged while emitting no command at
any step. -/
theorem update_advance_reject {T E : Type} (s : Select T E) (o : SelectOption T) (e : E)
    (hidx : goIndex s.options s.selected = some o)
    (hv : s.validate o.value = some e) (n : Nat) :
    Select.Update s (Msg.key (some KeyAction.next)) =
      some ({ s with err := some e }, none, [o.value]) ∧
    ∃ s' cs, Select.runMsgs s (List.replicate n (Msg.key (some KeyAction.next))) = some (s', cs) ∧
      s'.value = s.value ∧ s'.selected = s.selected ∧ s'.focused = s.focused ∧
      s'.options = s.options ∧ ∀ c ∈ cs, c = none := by
  have h1 : Select.Update s (Msg.key (some KeyAction.next)) =
      some ({ s with err := some e }, none, [o.value]) := by
    simp [Select.Update, hidx, hv]
  refine ⟨h1, ?_⟩
  cases n with
  | zero => exact ⟨s, [], rfl, rfl, rfl, rfl, rfl, by simp⟩
  | succ n =>
    have hfix : Select.Update { s with err := some e } (Msg.key (some KeyAction.next)) =
        some ({ s with err := some e }, none, [o.value]) := by
      simp [Select.Update, hidx, hv]
    have hrep := runMsgs_replicate_fix _ _ _ _ hfix n
    refine ⟨{ s with err := some e }, none :: List.replicate n none, ?_, rfl, rfl, rfl, rfl, ?_⟩
    · simp [List.replicate_succ, Select.runMsgs, h1, hrep]
    · intro c hc
      rcases List.mem_cons.mp hc with h | h
      · exact h
      · exact List.eq_of_mem_replicate h

/-- C2 witness: the theorem applied to the concrete field `s2W` whose
validator always fails, with three repeated advance attempts. -/
theorem update_advance_reject_app :
    Select.Update s2W (Msg.key (some KeyAction.next)) =
      some ({ s2W with err := some "bad" }, none, [1]) ∧
    ∃ s' cs, Select.runMsgs s2W (List.replicate 3 (Msg.key (some KeyAction.next))) = some (s', cs) ∧
      s'.value = s2W.value ∧ s'.selected = s2W.selected ∧ s'.focused = s2W.focused ∧
      s'.options = s2W.options ∧ ∀ c ∈ cs, c = none :=
  update_advance_reject s2W ⟨"1", 1⟩ "bad" rfl rfl 3

/-- C3: move-up sets the cursor to `max(cursor-1, 0)` and move-down to
`min(cursor+1, len(options)-1)` (saturating, never wrapping, no validator
call), and for a cursor initially in `[0, len(options))` any finite
sequence of move-up/move-down events keeps the cursor in that range with
no panic. -/
theorem cursor_clamped_invariant {T E : Type} (s : Select T E) (ms : List Msg)
    (hms : ∀ m ∈ ms, m = Msg.key (some KeyAction.up) ∨ m = Msg.key (some KeyAction.down))
    (h0 : 0 ≤ s.selected) (h1 : s.selected < s.options.length) :
    Select.Update s (Msg.key (some KeyAction.up)) =
      some ({ s with err := none, selected := max (s.selected - 1) 0 }, none, []) ∧
    Select.Update s (Msg.key (some KeyAction.down)) =
      some ({ s with err := none, selected := min (s.selected + 1) ((s.options.length : Int) - 1) }, none, []) ∧
    ∃ s' cs, Select.runMsgs s ms = some (s', cs) ∧
      0 ≤ s'.selected ∧ s'.selected < s'.options.length := by
  refine ⟨rfl, rfl, ?_⟩
  obtain ⟨s', cs, hrun, p0, p1, _⟩ := runMsgs_nav_bounds ms s hms h0 h1
  exact ⟨s', cs, hrun, p0, p1⟩

/-- C3 witness: the theorem applied to the three-option field `s3W` and
the sequence down, down, down, up. -/
theorem cursor_clamped_invariant_app :
    Select.Update s3W (Msg.key (some KeyAction.up)) =
      some ({ s3W with err := none, selected := max (s3W.selected - 1) 0 }, none, []) ∧
    Select.Update s3W (Msg.key (some KeyAction.down)) =
      some ({ s3W with err := none, selected := min (s3W.selected + 1) ((s3W.options.length : Int) - 1) }, none, []) ∧
    ∃ s' cs, Select.runMsgs s3W ms3W = some (s', cs) ∧
      0 ≤ s'.selected ∧ s'.selected < s'.options.length :=
  cursor_clamped_invariant s3W ms3W (by decide) (by decide) (by decide)

/-- C4: Blur runs the validator exactly once (trace `[s.value]`), on the
currently bound value and not on the highlighted option, stores the
result in the error slot, clears the focused flag, and changes nothing
else; `Error` on the result returns exactly that stored result (and keeps
doing so until another event is handled, since `Error` is a pure read). -/
theorem blur_validates_bound_value {T E : Type} (s : Select T E) :
    Select.Blur s = ({ s with focused := false, err := s.validate s.value }, none, [s.value]) ∧
    Select.Error (Select.Blur s).1 = s.validate s.value ∧
    (Select.Blur s).1.value = s.value ∧
    (Select.Blur s).1.selected = s.selected ∧
    (Select.Blur s).1.options = s.options :=
  ⟨rfl, rfl, rfl, rfl, rfl⟩

/-- C5: evaluating the code on a field built by `NewSelect` with zero
options: construction is not rejected, the advance event reaches the
out-of-bounds indexing branch (a Go panic, modelled as `none`), and the
move-down event sets the cursor to `-1`, outside `[0, len(options))`. -/
theorem empty_options_out_of_bounds :
    Select.Update s5W (Msg.key (some KeyAction.next)) = none ∧
    (Select.Update s5W (Msg.key (some KeyAction.down))).map (fun p => p.1.selected) = some (-1) :=
  ⟨rfl, rfl⟩

/-- C6 counterexample: on the field `s6W` with a stored error, a key
event matching no binding clears the stored error, so the field is not
left completely unchanged. -/
theorem unmatched_key_clears_error_cex :
    (Select.Update s6W (Msg.key none)).map (fun p => p.1.err) = some none ∧
    s6W.err = some "boom" ∧
    (Select.Update s6W (Msg.key none)).map (fun p => p.1.err) ≠ some s6W.err :=
  ⟨rfl, rfl, by decide⟩

/-- C6 amended: a non-key event leaves the field completely unchanged and
emits no command; a key event matching none of the four bindings clears
the stored error but changes nothing else, emits no command, and runs no
validator. -/
theorem unmatched_key_frame {T E : Type} (s : Select T E) :
    Select.Update s Msg.other = some (s, none, []) ∧
    Select.Update s (Msg.key none) = some ({ s with err := none }, none, []) :=
  ⟨rfl, rfl⟩

/-- C7: on a focused field, a retreat-key event immediately returns the
`prevField` command with no validator call (empty trace), no cursor
change and no bound-value write (only the stored error is cleared, as for
every key event). -/
theorem prev_emits_retreat {T E : Type} (s : Select T E) (_h : s.focused = true) :
    Select.Update s (Msg.key (some KeyAction.prev)) =
      some ({ s with err := none }, some Cmd.prevField, []) :=
  rfl

/-- C7 witness: the theorem applied to the concrete focused field `s7W`. -/
theorem prev_emits_retreat_app :
    Select.Update s7W (Msg.key (some KeyAction.prev)) =
      some ({ s7W with err := none }, some Cmd.prevField, []) :=
  prev_emits_retreat s7W rfl

/-- C8: in the accessible path, for an accepted choice `c` in
`[1, len(options)]` the option `options[c-1]` exists; if the validator
rejects it the loop prints the error and continues with the rest of the
input unchanged; if the validator accepts, the loop prints `Chose: `
followed by the option label, writes the option value into the bound
cell, and returns the `nil` error. The path emits no navigation command
(none appears in the result type of `Select.runAccessible`). -/
theorem runAccessible_choice {T E : Type} (errStr : E → String) (s : Select T E)
    (c : Nat) (rest : List Nat) (h1 : 1 ≤ c) (h2 : c ≤ s.options.length) :
    ∃ o, goIndex s.options ((c : Int) - 1) = some o ∧
      (∀ e, s.validate o.value = some e →
        Select.runAccessible errStr s (c :: rest) =
          (Select.runAccessible errStr s rest).map fun p => (p.1, errStr e :: p.2.1, p.2.2)) ∧
      (s.validate o.value = none →
        Select.runAccessible errStr s (c :: rest) =
          some ({ s with value := o.value }, ["Chose: " ++ o.key ++ "\n"], none)) := by
  have hlt : c - 1 < s.options.length := by omega
  obtain ⟨o, ho⟩ : ∃ o, s.options.get? (c - 1) = some o := ⟨_, List.get?_eq_get hlt⟩
  have hgi : goIndex s.options ((c : Int) - 1) = some o := by
    unfold goIndex
    rw [if_pos (by omega : (0 : Int) ≤ (c : Int) - 1)]
    have ht : ((c : Int) - 1).toNat = c - 1 := by omega
    rw [ht, ho]
  refine ⟨o, hgi, ?_, ?_⟩
  · intro e he
    simp only [Select.runAccessible, hgi, he]
    cases hr : Select.runAccessible errStr s rest with
    | none => simp
    | some p => simp
  · intro he
    simp [Select.runAccessible, hgi, he]

/-- C8 witness: the theorem applied to the three-option field `s8W` with
the accepted choice 2 and an empty remaining input stream. -/
theorem runAccessible_choice_app :
    ∃ o, goIndex s8W.options (((2 : Nat) : Int) - 1) = some o ∧
      (∀ e, s8W.validate o.value = some e →
        Select.runAccessible id s8W [2] =
          (Select.runAccessible id s8W []).map fun p => (p.1, id e :: p.2.1, p.2.2)) ∧
      (s8W.validate o.value = none →
        Select.runAccessible id s8W [2] =
          some ({ s8W with value := o.value }, ["Chose: " ++ o.key ++ "\n"], none)) :=
  runAccessible_choice id s8W 2 [] (by decide) (by decide)

/-- C9: a field built by `NewSelect` has a validator that succeeds on
every input, a bound cell initialized to the zero value, and no stored
error; blur-time validation on it produces no error, and (when at least
one option was given) advance-time validation produces no error and
returns the `nextField` command. -/
theorem NewSelect_defaults {T E : Type} [Inhabited T] (keyOf : T → String) (opts : List T) (v : T) :
    (NewSelect keyOf opts : Select T E).validate v = none ∧
    (NewSelect keyOf opts : Select T E).value = default ∧
    (NewSelect keyOf opts : Select T E).err = none ∧
    (Select.Blur (NewSelect keyOf opts : Select T E)).1.err = none ∧
    (opts ≠ [] →
      ∃ p, Select.Update (NewSelect keyOf opts : Select T E) (Msg.key (some KeyAction.next)) = some p ∧
        p.1.err = none ∧ p.2.1 = some Cmd.nextField) := by
  refine ⟨rfl, rfl, rfl, rfl, ?_⟩
  intro hne
  cases opts with
  | nil => exact absurd rfl hne
  | cons a as =>
    exact ⟨({ NewSelect keyOf (a :: as) with err := none, value := a }, some Cmd.nextField, [a]), rfl, rfl, rfl⟩

/-- C9 witness: the theorem applied to `NewSelect` over the single value
5, discharging the nonemptiness hypothesis of the advance conjunct. -/
theorem NewSelect_defaults_app :
    ∃ p, Select.Update (NewSelect toString [5] : Select Nat String) (Msg.key (some KeyAction.next)) = some p ∧
      p.1.err = none ∧ p.2.1 = some Cmd.nextField :=
  (NewSelect_defaults toString [5] 0).2.2.2.2 (by decide)

/-- C10: Focus sets only the focused flag, returns the `nil` command and
runs no validator (empty trace); the stored error, bound value, cursor
and options are unchanged. -/
theorem focus_only_sets_flag {T E : Type} (s : Select T E) :
    Select.Focus s = ({ s with focused := true }, none, []) ∧
    (Select.Focus s).1.err = s.err ∧
    (Select.Focus s).1.value = s.value ∧
    (Select.Focus s).1.selected = s.selected ∧
    (Select.Focus s).1.options = s.options :=
  ⟨rfl, rfl, rfl, rfl, rfl⟩

end Huh
